import Mathlib

/-!
Verification development for the render-and-reconcile stream extraction
engine (`app.py`).  The Python request handler `extract_stream` and the two
injected JavaScript constants (`JS_EXTRACT_STREAM_LINKS`,
`JS_EXTRACT_IFRAMES`) are shallowly embedded below: each loop becomes a
fold, each dictionary becomes an association-style lookup, and the external
collaborators (the headless browser, `datetime.fromisoformat`) become
explicit inputs of the embedded functions.
-/

namespace StreamExtract

/-- Whitespace as recognised by Python's `str.strip` and JS `trim` /
regex `\s` (ASCII part). -/
def isWsChar (c : Char) : Bool :=
  c = ' ' ∨ c = '\t' ∨ c = '\n' ∨ c = '\r' ∨ c = Char.ofNat 12 ∨ c = Char.ofNat 11

/-- Python `str.strip()` (ASCII whitespace). -/
def pyStrip (s : String) : String :=
  String.mk (((s.toList.dropWhile isWsChar).reverse.dropWhile isWsChar).reverse)

/-- `pat.isPrefixOf s` on strings, by character list. -/
def startsWithStr (s pat : String) : Bool :=
  pat.toList.isPrefixOf s.toList

/-- Auxiliary scan for substring containment. -/
def strContainsAux (needle : List Char) : List Char → Bool
  | [] => needle.isPrefixOf []
  | cs@(_ :: tail) => needle.isPrefixOf cs || strContainsAux needle tail

/-- Python `needle in hay` / JS `hay.includes(needle)`: substring test. -/
def strContains (hay needle : String) : Bool :=
  strContainsAux needle.toList hay.toList

/-- Python `s.replace(pat, rep)` (all non-overlapping occurrences, left to
right); fuel-driven recursion on the character list. -/
def pyReplaceAux (pat rep : List Char) : Nat → List Char → List Char
  | 0, cs => cs
  | _ + 1, [] => []
  | fuel + 1, cs@(c :: tail) =>
    if pat.isPrefixOf cs ∧ pat ≠ [] then
      rep ++ pyReplaceAux pat rep fuel (cs.drop pat.length)
    else
      c :: pyReplaceAux pat rep fuel tail

/-- Python `s.replace(pat, rep)`. -/
def pyReplace (s pat rep : String) : String :=
  String.mk (pyReplaceAux pat.toList rep.toList s.toList.length s.toList)

/-- ASCII lowercasing, as `str.lower` / scheme normalisation in `urlparse`. -/
def lowerStr (s : String) : String :=
  String.mk (s.toList.map Char.toLower)

/-! ## `urllib.parse.urlparse` (scheme and netloc components)

`extract_stream` only uses `.scheme` and `.netloc` of the parse result, so
only those two components are modelled. -/

/-- Characters allowed in a URL scheme after the leading letter. -/
def isSchemeChar (c : Char) : Bool :=
  c.isAlphanum ∨ c = '+' ∨ c = '-' ∨ c = '.'

/-- The scheme/netloc part of `urllib.parse.urlparse`: the scheme is the
(lowercased) prefix before the first `:` when it starts with a letter and
uses only scheme characters; the netloc follows a `//` and runs until
`/`, `?` or `#`. -/
structure UrlParts where
  scheme : String
  netloc : String
deriving Repr, DecidableEq

/-- Model of `urllib.parse.urlparse` restricted to scheme and netloc. -/
def urlparse (s : String) : UrlParts :=
  let cs := s.toList
  let pre := cs.takeWhile (fun c => c ≠ ':')
  let hasScheme :=
    pre.length < cs.length ∧ pre ≠ [] ∧
      (match pre.head? with
       | some c => c.isAlpha
       | none => false) = true ∧ pre.all isSchemeChar = true
  let (scheme, rest) :=
    if hasScheme then (String.mk (pre.map Char.toLower), cs.drop (pre.length + 1))
    else ("", cs)
  let netloc :=
    match rest with
    | '/' :: '/' :: after =>
      String.mk (after.takeWhile (fun c => c ≠ '/' ∧ c ≠ '?' ∧ c ≠ '#'))
    | _ => ""
  { scheme := scheme, netloc := netloc }

/-! ## Data model

`EmbedCandidate` dictionaries built by `extract_stream` (keys `src`,
`width`, `height`, `allowfullscreen`, and an optional `label` added during
merging). -/

structure Candidate where
  src : String
  width : String
  height : String
  allowfullscreen : Bool
  label : Option String
deriving Repr, DecidableEq

/-- A `{src, id, className}` triple returned by `JS_EXTRACT_IFRAMES` over
the live DOM. -/
structure JsIframe where
  src : String
  id : String
  className : String
deriving Repr, DecidableEq

/-- A `{url, label}` pair as consumed by the merging phase of
`extract_stream` (the `stream_links` list). -/
structure LinkLabel where
  url : String
  label : String
deriving Repr, DecidableEq

/-! ## Static Markup Parser (app.py lines 380-391)

Each `<iframe>` element found by BeautifulSoup is modelled by its
attribute association list (first occurrence of an attribute wins, as in
the parsed tree). -/

structure HtmlElem where
  attrs : List (String × String)
deriving Repr, DecidableEq

/-- `element.get(name)`: `None` when the attribute is absent. -/
def getAttr (e : HtmlElem) (name : String) : Option String :=
  (e.attrs.find? (fun p => p.1 == name)).map (fun p => p.2)

/-- The body of the static-markup iframe loop: build the attribute
dictionary (with the static defaults) and append it when its `src` is
non-empty. -/
def staticStep (acc : List Candidate) (iframe : HtmlElem) : List Candidate :=
  let d : Candidate :=
    { src := (getAttr iframe "src").getD ""
      width := (getAttr iframe "width").getD "100%"
      height := (getAttr iframe "height").getD "500"
      allowfullscreen := (getAttr iframe "allowfullscreen").isSome
      label := none }
  if d.src ≠ "" then acc ++ [d] else acc

/-- The static-markup iframe loop: one candidate per iframe element with a
non-empty `src`, widths/heights defaulted to `"100%"`/`"500"`, and
`allowfullscreen` recording attribute presence (`is not None`). -/
def parseIframes (elems : List HtmlElem) : List Candidate :=
  elems.foldl staticStep []

/-! ## Reconciliation Engine (app.py lines 409-446) -/

/-- Step 1: the dictionary comprehension
`{link['url']: link['label'] for link in stream_links if link.get('url') and link.get('label')}`;
later entries overwrite earlier ones. -/
def urlToLabel (streamLinks : List LinkLabel) : String → Option String :=
  streamLinks.foldl
    (fun m link =>
      if link.url ≠ "" ∧ link.label ≠ "" then
        fun u => if u = link.url then some link.label else m u
      else m)
    (fun _ => none)

/-- Step 2: `if iframe['src'] in url_to_label: iframe['label'] = url_to_label[iframe['src']]`. -/
def enrich (m : String → Option String) (c : Candidate) : Candidate :=
  match m c.src with
  | some lab => { c with label := some lab }
  | none => c

/-- Candidate appended for a live-DOM iframe in Step 3 (dynamic defaults,
label looked up in the Step-1 mapping). -/
def mkJsCand (streamLinks : List LinkLabel) (j : JsIframe) : Candidate :=
  { src := j.src, width := "100%", height := "600", allowfullscreen := true
    label := urlToLabel streamLinks j.src }

/-- Candidate appended for a stream link in Step 4 (dynamic defaults, its
own label). -/
def mkLinkCand (link : LinkLabel) : Candidate :=
  { src := link.url, width := "100%", height := "600", allowfullscreen := true
    label := some link.label }

/-- One iteration of the Step-3/Step-4 loops: append when the key is a
non-empty URL not yet tracked, and track it. -/
def addNew (key : α → String) (mk : α → Candidate)
    (p : List Candidate × List String) (a : α) : List Candidate × List String :=
  if key a ≠ "" ∧ key a ∉ p.2 then (p.1 ++ [mk a], key a :: p.2) else p

/-- The tracked set `all_iframe_srcs` as initialised before Step 3
(`set([i['src'] for i in iframes if i['src']])`, after enrichment). -/
def seenInit (iframes : List Candidate) (streamLinks : List LinkLabel) : List String :=
  ((iframes.map (enrich (urlToLabel streamLinks))).map (fun c => c.src)).filter
    (fun s => s != "")

/-- The full merging phase (Steps 1-4 of app.py lines 409-446): enrich the
static candidates, then append previously unseen live-DOM iframes, then
previously unseen stream links. -/
def reconcile (iframes : List Candidate) (iframesFromJs : List JsIframe)
    (streamLinks : List LinkLabel) : List Candidate :=
  let enriched := iframes.map (enrich (urlToLabel streamLinks))
  let p1 := iframesFromJs.foldl (addNew JsIframe.src (mkJsCand streamLinks))
    (enriched, seenInit iframes streamLinks)
  let p2 := streamLinks.foldl (addNew LinkLabel.url mkLinkCand) p1
  p2.1

/-- The candidates contributed by one of the two appending loops when it
starts from an empty accumulator and the given tracked set. -/
def newCands (key : α → String) (mk : α → Candidate)
    (seen : List String) (xs : List α) : List Candidate :=
  (xs.foldl (addNew key mk) ([], seen)).1

/-- The tracked set after one of the two appending loops. -/
def seenAfter (key : α → String) (mk : α → Candidate)
    (seen : List String) (xs : List α) : List String :=
  (xs.foldl (addNew key mk) ([], seen)).2

/-! ## Fallback Link Harvester (app.py lines 458-499) -/

structure Anchor where
  href : String
  text : String
deriving Repr, DecidableEq

structure FallbackLink where
  url : String
  title : String
deriving Repr, DecidableEq

/-- The body of the anchor loop: skip empty/in-page/javascript
destinations, resolve root-relative destinations against
`scheme://domain`, skip other non-`http` destinations, require the target
domain to be contained in the link's netloc (Python `domain in
link_domain`), and drop a link equal to the target URL itself. -/
def resolveAnchor (scheme domain url : String) (a : Anchor) : Option FallbackLink :=
  let href0 := pyStrip a.href
  let text := pyStrip a.text
  if href0 = "" ∨ startsWithStr href0 "#" ∨ startsWithStr href0 "javascript:" then none
  else
    let href := if startsWithStr href0 "/" then scheme ++ "://" ++ domain ++ href0 else href0
    if ¬ startsWithStr href0 "/" ∧ ¬ startsWithStr href0 "http" then none
    else if ¬ strContains (urlparse href).netloc domain then none
    else if href = url then none
    else some { url := href, title := if text ≠ "" then text else href }

/-- The dedup loop over `links_found` (`seen_urls` set, first occurrence
wins). -/
def dedupByUrlAux (seen : List String) : List FallbackLink → List FallbackLink
  | [] => []
  | l :: rest =>
    if l.url ∈ seen then dedupByUrlAux seen rest
    else l :: dedupByUrlAux (l.url :: seen) rest

/-- `unique_links` as built from `links_found`. -/
def dedupByUrl (ls : List FallbackLink) : List FallbackLink :=
  dedupByUrlAux [] ls

/-- The fallback harvest: `links_found` built by the anchor loop, then
deduplicated (the `[:50]` cap is applied at the response site). -/
def harvestLinks (scheme domain url : String) (anchors : List Anchor) : List FallbackLink :=
  dedupByUrl (anchors.filterMap (resolveAnchor scheme domain url))

/-! ## The request pipeline of `extract_stream` (app.py lines 286-516)

External collaborators become inputs: the consent payload and URL are the
request; ISO-8601 parsing (`datetime.fromisoformat`) is an injected
predicate; everything obtained from the rendered page (static iframe
elements, anchors, title, live-DOM triples, mined stream links) is a
`Page` value. -/

structure Consent where
  given : Bool
  timestamp : Option String
deriving Repr, DecidableEq

structure Request where
  url : String
  consent : Consent
deriving Repr, DecidableEq

structure Page where
  title : Option String
  iframeElems : List HtmlElem
  anchors : List Anchor
  jsIframes : List JsIframe
  streamLinks : List LinkLabel
deriving Repr, DecidableEq

/-- Python truthiness of `consent.get('timestamp')` (absent or empty is
falsy). -/
def tsTruthy : Option String → Bool
  | none => false
  | some s => s ≠ ""

inductive ExtractResult where
  | consentError (msg : String) (status : Nat)
  | urlError (msg : String) (status : Nat)
  | noPlayerFound (links : List FallbackLink) (status : Nat)
  | success (title : String) (iframes : List Candidate)
deriving Repr, DecidableEq

/-- The `extract_stream` handler: consent validation, timestamp format
validation, URL validation, then render/merge, and either the
`no_iframes` fallback payload (capped at 50 links) or the success
payload. -/
def extractStream (isoOk : String → Bool) (req : Request) (page : Page) : ExtractResult :=
  if ¬ (req.consent.given = true ∧ tsTruthy req.consent.timestamp = true) then
    .consentError "You must agree to the terms before using this service" 403
  else if ¬ isoOk (pyReplace (req.consent.timestamp.getD "") "Z" "+00:00") then
    .consentError "Invalid consent timestamp format" 400
  else if req.url = "" then
    .urlError "URL is required" 400
  else
    let p := urlparse req.url
    if ¬ (p.scheme = "http" ∨ p.scheme = "https") then
      .urlError "Invalid URL scheme" 400
    else if p.netloc = "" then
      .urlError "Invalid URL: missing hostname" 400
    else
      let statics := parseIframes page.iframeElems
      let iframes := reconcile statics page.jsIframes page.streamLinks
      let pageTitle := page.title.getD "Stream"
      if iframes.isEmpty then
        .noPlayerFound ((harvestLinks p.scheme p.netloc req.url page.anchors).take 50) 404
      else
        .success pageTitle iframes

/-! ## UI-Affordance Link Miner (`JS_EXTRACT_STREAM_LINKS`, app.py lines 111-187)

The injected JavaScript runs against the live document, which is modelled
as the list of clickable elements seen by the Method-1 selector and the
list of `<script>` text contents.  JavaScript values that can flow out of
`JSON.parse` are modelled by `Json` (numbers keep their source lexeme:
none of the embedded logic computes with their numeric value). -/

inductive Json where
  | str (s : String)
  | num (lit : String)
  | bool (b : Bool)
  | null
  | arr (items : List Json)
  | obj (fields : List (String × Json))

/-- An entry of the `links` array built by the injected script. -/
structure JsLink where
  label : Json
  url : Json

/-- A clickable element as read by Method 1: its `textContent` and the
attributes the script inspects (`getAttribute` returns `null` when the
attribute is absent). -/
structure ClickElem where
  textContent : String
  onclick : Option String
  dataUrl : Option String
  dataSrc : Option String
  dataStream : Option String

/-- The live document as seen by the injected script. -/
structure LiveDoc where
  clickables : List ClickElem
  scripts : List String

/-- JS `a || b` on an attribute value: `null` and `""` fall through. -/
def jsOr (a : Option String) (b : String) : String :=
  match a with
  | some s => if s ≠ "" then s else b
  | none => b

/-- `elem.getAttribute('data-url') || elem.getAttribute('data-src') ||
elem.getAttribute('data-stream') || ''`. -/
def dataUrlOf (e : ClickElem) : String :=
  jsOr e.dataUrl (jsOr e.dataSrc (jsOr e.dataStream ""))

/-- Characters excluded by the `[^\s'"\)]` character class of the URL
regexes. -/
def isUrlStopChar (c : Char) : Bool :=
  isWsChar c ∨ c = Char.ofNat 39 ∨ c = '"' ∨ c = ')'

/-- Strip a literal pattern from the front of a character list. -/
def stripStr (pat : String) (cs : List Char) : Option (List Char) :=
  if pat.toList.isPrefixOf cs then some (cs.drop pat.toList.length) else none

/-- First match of `/https?:\/\/[^\s'"\)]+/` (the `onclick` URL scan):
leftmost position where `http://` or `https://` is followed by at least
one non-excluded character; the match extends over the maximal run. -/
def firstHttpMatchAux : List Char → Option String
  | [] => none
  | cs@(_ :: tail) =>
    let tryAt : String → Option String := fun pfx =>
      match stripStr pfx cs with
      | some rest =>
        let run := rest.takeWhile (fun c => ¬ isUrlStopChar c)
        if run ≠ [] then some (String.mk (pfx.toList ++ run)) else none
      | none => none
    match tryAt "https://" with
    | some u => some u
    | none =>
      match tryAt "http://" with
      | some u => some u
      | none => firstHttpMatchAux tail

/-- First URL in an onclick handler. -/
def firstHttpMatch (s : String) : Option String :=
  firstHttpMatchAux s.toList

/-- The `/link[\s-]*\d/` test on the lowercased text. -/
def matchesLinkNum : List Char → Bool
  | [] => false
  | cs@(_ :: tail) =>
    (match stripStr "link" cs with
     | some rest =>
       match (rest.dropWhile (fun c => isWsChar c ∨ c = '-')).head? with
       | some c => c.isDigit
       | none => false
     | none => false) || matchesLinkNum tail

/-- The Method-1 text heuristic:
`text.includes('link') || text.includes('hd') || text.includes('server') || text.match(/link[\s-]*\d/)`
over the lowercased `textContent`. -/
def isStreamButtonText (text : String) : Bool :=
  strContains text "link" || strContains text "hd" || strContains text "server" ||
    matchesLinkNum text.toList

/-- JS `String.prototype.trim` (ASCII whitespace, as `pyStrip`). -/
def jsTrim (s : String) : String := pyStrip s

/-- Method 1 (Strategy A): for each clickable element whose lowercased
text matches the heuristic, push a link from the first URL in its
`onclick`, falling back to the first non-empty `data-url` / `data-src` /
`data-stream` attribute. -/
def runStrategyA (elems : List ClickElem) (links : List JsLink) : List JsLink :=
  elems.foldl
    (fun links elem =>
      let text := lowerStr elem.textContent
      if isStreamButtonText text then
        let onclick := jsOr elem.onclick ""
        let dataUrl := dataUrlOf elem
        match firstHttpMatch onclick with
        | some u => links ++ [{ label := .str (jsTrim elem.textContent), url := .str u }]
        | none =>
          if dataUrl ≠ "" then
            links ++ [{ label := .str (jsTrim elem.textContent), url := .str dataUrl }]
          else links
      else links)
    links

/-! ### A small JSON parser (model of `JSON.parse`) -/

/-- Hexadecimal digit value. -/
def hexVal (c : Char) : Option Nat :=
  if c.isDigit then some (c.toNat - 48)
  else if 'a' ≤ c ∧ c ≤ 'f' then some (c.toNat - 87)
  else if 'A' ≤ c ∧ c ≤ 'F' then some (c.toNat - 70)
  else none

/-- Single-character JSON string escapes. -/
def escChar (c : Char) : Option Char :=
  if c = '"' then some '"'
  else if c = '\\' then some '\\'
  else if c = '/' then some '/'
  else if c = 'n' then some '\n'
  else if c = 't' then some '\t'
  else if c = 'r' then some '\r'
  else if c = 'b' then some (Char.ofNat 8)
  else if c = 'f' then some (Char.ofNat 12)
  else none

/-- JSON string body parser (after the opening quote). -/
def parseJsonString : List Char → Option (List Char × List Char)
  | '"' :: rest => some ([], rest)
  | '\\' :: 'u' :: a :: b :: c :: d :: rest =>
    (match hexVal a, hexVal b, hexVal c, hexVal d with
     | some x, some y, some z, some w =>
       match parseJsonString rest with
       | some (s, r) => some (Char.ofNat (((x * 16 + y) * 16 + z) * 16 + w) :: s, r)
       | none => none
     | _, _, _, _ => none)
  | '\\' :: e :: rest =>
    (match escChar e with
     | some ch =>
       match parseJsonString rest with
       | some (s, r) => some (ch :: s, r)
       | none => none
     | none => none)
  | ch :: rest =>
    if ch.toNat < 32 then none
    else
      match parseJsonString rest with
      | some (s, r) => some (ch :: s, r)
      | none => none
  | [] => none

/-- JSON whitespace skip. -/
def jsonWs (cs : List Char) : List Char :=
  cs.dropWhile (fun c => c = ' ' ∨ c = '\t' ∨ c = '\n' ∨ c = '\r')

/-- JSON number lexer (sign, integer part without leading zeros, optional
fraction and exponent); returns the lexeme. -/
def parseJsonNumber (cs : List Char) : Option (List Char × List Char) :=
  let (sign, cs1) :=
    match cs with
    | '-' :: rest => (['-'], rest)
    | _ => (([] : List Char), cs)
  match cs1 with
  | '0' :: rest =>
    let (frac, cs2) := parseFrac rest
    match frac with
    | some f => some (sign ++ ['0'] ++ f, cs2)
    | none => none
  | c :: _ =>
    if c.isDigit then
      let digits := cs1.takeWhile Char.isDigit
      let rest := cs1.dropWhile Char.isDigit
      let (frac, cs2) := parseFrac rest
      match frac with
      | some f => some (sign ++ digits ++ f, cs2)
      | none => none
    else none
  | [] => none
where
  /-- Optional fraction and exponent; `none` on a malformed tail. -/
  parseFrac (cs : List Char) : Option (List Char) × List Char :=
    let (fpart, cs1) :=
      match cs with
      | '.' :: rest =>
        (if (rest.takeWhile Char.isDigit) = [] then none
         else some ('.' :: rest.takeWhile Char.isDigit),
         if (rest.takeWhile Char.isDigit) = [] then cs else rest.dropWhile Char.isDigit)
      | _ => (some [], cs)
    match fpart with
    | none => (none, cs1)
    | some f =>
      match cs1 with
      | e :: rest =>
        if e = 'e' ∨ e = 'E' then
          let (sgn, rest1) :=
            match rest with
            | '+' :: r => (['+'], r)
            | '-' :: r => (['-'], r)
            | _ => (([] : List Char), rest)
          let ds := rest1.takeWhile Char.isDigit
          if ds = [] then (none, cs1)
          else (some (f ++ [e] ++ sgn ++ ds), rest1.dropWhile Char.isDigit)
        else (some f, cs1)
      | [] => (some f, cs1)

mutual

/-- Fuel-driven JSON value parser. -/
def parseJsonValue : Nat → List Char → Option (Json × List Char)
  | 0, _ => none
  | fuel + 1, cs =>
    match jsonWs cs with
    | 't' :: 'r' :: 'u' :: 'e' :: rest => some (.bool true, rest)
    | 'f' :: 'a' :: 'l' :: 's' :: 'e' :: rest => some (.bool false, rest)
    | 'n' :: 'u' :: 'l' :: 'l' :: rest => some (.null, rest)
    | '"' :: rest =>
      (match parseJsonString rest with
       | some (s, r) => some (.str (String.mk s), r)
       | none => none)
    | '[' :: rest => parseJsonArrayItems fuel (jsonWs rest) []
    | '\x7b' :: rest => parseJsonObjectItems fuel (jsonWs rest) []
    | other =>
      match parseJsonNumber other with
      | some (lit, r) => some (.num (String.mk lit), r)
      | none => none

/-- Items of a JSON array (expects either `]` or a value at the head). -/
def parseJsonArrayItems : Nat → List Char → List Json → Option (Json × List Char)
  | 0, _, _ => none
  | fuel + 1, cs, acc =>
    match cs with
    | ']' :: rest => if acc.isEmpty then some (.arr [], rest) else none
    | _ =>
      match parseJsonValue fuel cs with
      | some (v, r) =>
        (match jsonWs r with
         | ',' :: rest => parseJsonArrayItems fuel (jsonWs rest) (acc ++ [v])
         | ']' :: rest => some (.arr (acc ++ [v]), rest)
         | _ => none)
      | none => none

/-- Members of a JSON object (expects either the closing brace or a
`"key": value` pair at the head). -/
def parseJsonObjectItems : Nat → List Char → List (String × Json) →
    Option (Json × List Char)
  | 0, _, _ => none
  | fuel + 1, cs, acc =>
    match cs with
    | '\x7d' :: rest => if acc.isEmpty then some (.obj [], rest) else none
    | '"' :: rest =>
      (match parseJsonString rest with
       | some (k, r) =>
         (match jsonWs r with
          | ':' :: r2 =>
            (match parseJsonValue fuel r2 with
             | some (v, r3) =>
               (match jsonWs r3 with
                | ',' :: rest2 =>
                  (match jsonWs rest2 with
                   | '"' :: _ =>
                     parseJsonObjectItems fuel (jsonWs rest2) (acc ++ [(String.mk k, v)])
                   | _ => none)
                | '\x7d' :: rest2 => some (.obj (acc ++ [(String.mk k, v)]), rest2)
                | _ => none)
             | none => none)
          | _ => none)
       | none => none)
    | _ => none

end

/-- `JSON.parse`: a full parse of the given text (trailing whitespace
allowed). -/
def jsonParse (s : String) : Option Json :=
  match parseJsonValue (s.toList.length + 4) s.toList with
  | some (v, rest) => if jsonWs rest = [] then some v else none
  | none => none

/-- JS property access `stream.key` on a parsed JSON value (`undefined`,
i.e. `none`, when the value is not an object or lacks the key; a
duplicated key keeps its last value, as in `JSON.parse`). -/
def jsGet (j : Json) (key : String) : Option Json :=
  match j with
  | .obj fields => (fields.reverse.find? (fun p => p.1 == key)).map (fun p => p.2)
  | _ => none

/-- Whether the mantissa of a JSON number lexeme is zero. -/
def numLitIsZero (lit : String) : Bool :=
  ((lit.toList.takeWhile (fun c => c ≠ 'e' ∧ c ≠ 'E')).filter Char.isDigit).all
    (fun c => c = '0')

/-- JS truthiness of `stream.value` / `stream.label`. -/
def jsTruthy : Option Json → Bool
  | none => false
  | some .null => false
  | some (.bool b) => b
  | some (.str s) => s ≠ ""
  | some (.num lit) => ¬ numLitIsZero lit
  | some (.arr _) => true
  | some (.obj _) => true

/-- Head of the `/const\s+allStreams\s*=\s*(\[.*?\]);/s` pattern: on
success returns the remainder starting at the `[`. -/
def matchAllStreamsHead (cs : List Char) : Option (List Char) :=
  match stripStr "const" cs with
  | some cs1 =>
    (match cs1 with
     | c :: rest =>
       if isWsChar c then
         let cs2 := rest.dropWhile isWsChar
         match stripStr "allStreams" cs2 with
         | some cs3 =>
           let cs4 := cs3.dropWhile isWsChar
           (match stripStr "=" cs4 with
            | some cs5 =>
              let cs6 := cs5.dropWhile isWsChar
              (match cs6 with
               | '[' :: _ => some cs6
               | _ => none)
            | none => none)
         | none => none
       else none
     | [] => none)
  | none => none

/-- The lazy capture `(\[.*?\])` followed by `;`: the shortest extension
ending at a `]` that is immediately followed by `;`. -/
def lazyBracketCapture (acc : List Char) : List Char → Option (List Char)
  | ']' :: ';' :: _ => some (acc.reverse ++ [']'])
  | c :: rest => lazyBracketCapture (c :: acc) rest
  | [] => none

/-- Leftmost match of `/const\s+allStreams\s*=\s*(\[.*?\]);/s`, returning
the captured bracketed text. -/
def matchAllStreams : List Char → Option (List Char)
  | [] => none
  | cs@(_ :: tail) =>
    match matchAllStreamsHead cs with
    | some bracketCs =>
      (match bracketCs with
       | b :: bRest =>
         (match lazyBracketCapture [b] bRest with
          | some cap => some cap
          | none => matchAllStreams tail)
       | [] => matchAllStreams tail)
    | none => matchAllStreams tail

/-- Method 2 (Strategy B): scan each script text for the `allStreams`
array; on a successful regex match and `JSON.parse`, push one link per
array entry whose `value` and `label` are truthy.  Parse failures are
swallowed (the `try`/`catch`). -/
def runStrategyB (scripts : List String) (links : List JsLink) : List JsLink :=
  scripts.foldl
    (fun links script =>
      if script ≠ "" ∧ strContains script "allStreams" = true then
        match matchAllStreams script.toList with
        | some cap =>
          (match jsonParse (String.mk cap) with
           | some (.arr items) =>
             items.foldl
               (fun links stream =>
                 if jsTruthy (jsGet stream "value") ∧ jsTruthy (jsGet stream "label") then
                   links ++ [{ label := (jsGet stream "label").getD .null
                               url := (jsGet stream "value").getD .null }]
                 else links)
               links
           | some _ => links
           | none => links)
        | none => links
      else links)
    links

/-- Strict equality `l.url === url` where `url` is the matched string. -/
def jsEqStr (j : Json) (s : String) : Bool :=
  match j with
  | .str t => t == s
  | _ => false

/-- End position of a Method-3 match inside the maximal allowed-character
run following `https?://`: the last `channel=` that is followed by a
digit and preceded by a `player` occurrence (itself preceded by at least
one character), extended over the maximal digit run — the extent the
greedy regex `[^\s'"\)]+player[^\s'"\)]*channel=[\d]+` selects. -/
def playerEnd (run : List Char) : Option Nat :=
  let chans := (List.range run.length).filter
    (fun k =>
      "channel=".toList.isPrefixOf (run.drop k) &&
      (match (run.drop (k + 8)).head? with
       | some c => c.isDigit
       | none => false) &&
      (List.range run.length).any
        (fun p => decide (1 ≤ p) && decide (p + 6 ≤ k) &&
          "player".toList.isPrefixOf (run.drop p)))
  match chans.getLast? with
  | some k => some (k + 8 + ((run.drop (k + 8)).takeWhile Char.isDigit).length)
  | none => none

/-- Try the Method-3 player-URL pattern at the current position; on
success returns the matched text and the remainder after it. -/
def playerMatchAt (cs : List Char) : Option (String × List Char) :=
  let pfx? :=
    if "https://".toList.isPrefixOf cs then some "https://"
    else if "http://".toList.isPrefixOf cs then some "http://"
    else none
  match pfx? with
  | some pfx =>
    let rest := cs.drop pfx.toList.length
    let run := rest.takeWhile (fun c => ¬ isUrlStopChar c)
    (match playerEnd run with
     | some e => some (String.mk (pfx.toList ++ run.take e), rest.drop e)
     | none => none)
  | none => none

/-- All (global-flag) matches of the Method-3 pattern, fuelled by the
text length. -/
def playerMatchesAux : Nat → List Char → List String
  | 0, _ => []
  | fuel + 1, cs =>
    match cs with
    | [] => []
    | _ :: tail =>
      match playerMatchAt cs with
      | some (m, rest) => m :: playerMatchesAux fuel rest
      | none => playerMatchesAux fuel tail

/-- `scriptText.match(/https?:\/\/[^\s'"\)]+player[^\s'"\)]*channel=[\d]+/g)`. -/
def playerMatches (s : String) : List String :=
  playerMatchesAux s.toList.length s.toList

/-- The Method-3 push: `if (!links.some(l => l.url === url)) links.push({label: 'Server ' + (links.length + 1), url: url})`. -/
def pushPlayer (links : List JsLink) (url : String) : List JsLink :=
  if ¬ (links.any (fun l => jsEqStr l.url url)) = true then
    links ++ [{ label := .str ("Server " ++ toString (links.length + 1)), url := .str url }]
  else links

/-- Method 3 (Strategy C): push each player-pattern URL not already in
`links`, labelled `'Server ' + (links.length + 1)` at the moment of the
push. -/
def runStrategyC (scripts : List String) (links : List JsLink) : List JsLink :=
  scripts.foldl
    (fun links script =>
      if script ≠ "" then (playerMatches script).foldl pushPlayer links else links)
    links

/-- The full injected script: `var links = []`, Method 1, Method 2,
Method 3, `return links`. -/
def extractStreamLinks (doc : LiveDoc) : List JsLink :=
  runStrategyC doc.scripts (runStrategyB doc.scripts (runStrategyA doc.clickables []))

/-! ## Predicates used in the statements of the verified properties -/

/-- Whether an extraction result is one of the invalid-URL rejections. -/
def isUrlError : ExtractResult → Prop
  | .urlError _ _ => True
  | _ => False

/-- From position `base` on, every entry of `links` carries the label
`"Server " ++ (index + 1)` — the numbering Strategy C stamps on the
entries it appends. -/
def LabelsFrom (base : Nat) (links : List JsLink) : Prop :=
  ∀ i x, base ≤ i → links[i]? = some x →
    x.label = Json.str ("Server " ++ toString (i + 1))

/-- A live document on which Strategy A (button scan) and Strategy B
(`allStreams` extraction) both emit the same URL. -/
def minerDupDoc : LiveDoc :=
  { clickables := [{ textContent := "Link 1", onclick := some "go(\"http://u.example/p\")",
                     dataUrl := none, dataSrc := none, dataStream := none }],
    scripts := ["const allStreams = [\x7b\"label\":\"B1\",\"value\":\"http://u.example/p\"\x7d];"] }

/-- A live document with one Strategy-A data-attribute link and one
Strategy-C player URL in an inline script. -/
def minerNumberDoc : LiveDoc :=
  { clickables := [{ textContent := "Server", onclick := none,
                     dataUrl := some "http://a.example/x", dataSrc := none,
                     dataStream := none }],
    scripts := ["var x = \"http://h.example/player?channel=5\";"] }

/-! ## Lemmas about the reconciliation folds -/

theorem foldl_addNew_split (key : α → String) (mk : α → Candidate) :
    ∀ (xs : List α) (acc : List Candidate) (seen : List String),
      xs.foldl (addNew key mk) (acc, seen)
        = (acc ++ (xs.foldl (addNew key mk) ([], seen)).1,
           (xs.foldl (addNew key mk) ([], seen)).2) := by
  intro xs
  induction xs with
  | nil => intro acc seen; simp
  | cons x xs ih =>
    intro acc seen
    by_cases h : key x ≠ "" ∧ key x ∉ seen
    · simp only [List.foldl_cons, addNew, if_pos h]
      rw [ih (acc ++ [mk x]) (key x :: seen), ih ([] ++ [mk x]) (key x :: seen)]
      simp
    · simp only [List.foldl_cons, addNew, if_neg h]
      exact ih acc seen

theorem newCands_nil (key : α → String) (mk : α → Candidate) (seen : List String) :
    newCands key mk seen [] = [] := rfl

theorem seenAfter_nil (key : α → String) (mk : α → Candidate) (seen : List String) :
    seenAfter key mk seen [] = seen := rfl

theorem newCands_cons (key : α → String) (mk : α → Candidate) (seen : List String)
    (x : α) (xs : List α) :
    newCands key mk seen (x :: xs)
      = if key x ≠ "" ∧ key x ∉ seen then mk x :: newCands key mk (key x :: seen) xs
        else newCands key mk seen xs := by
  by_cases h : key x ≠ "" ∧ key x ∉ seen
  · rw [if_pos h]
    show (List.foldl (addNew key mk) (addNew key mk ([], seen) x) xs).1 = _
    rw [show addNew key mk ([], seen) x = ([mk x], key x :: seen) by
      simp [addNew, if_pos h]]
    rw [foldl_addNew_split key mk xs [mk x] (key x :: seen)]
    rfl
  · rw [if_neg h]
    show (List.foldl (addNew key mk) (addNew key mk ([], seen) x) xs).1 = _
    rw [show addNew key mk ([], seen) x = ([], seen) by simp [addNew, if_neg h]]
    rfl

theorem seenAfter_cons (key : α → String) (mk : α → Candidate) (seen : List String)
    (x : α) (xs : List α) :
    seenAfter key mk seen (x :: xs)
      = if key x ≠ "" ∧ key x ∉ seen then seenAfter key mk (key x :: seen) xs
        else seenAfter key mk seen xs := by
  by_cases h : key x ≠ "" ∧ key x ∉ seen
  · rw [if_pos h]
    show (List.foldl (addNew key mk) (addNew key mk ([], seen) x) xs).2 = _
    rw [show addNew key mk ([], seen) x = ([mk x], key x :: seen) by
      simp [addNew, if_pos h]]
    rw [foldl_addNew_split key mk xs [mk x] (key x :: seen)]
    rfl
  · rw [if_neg h]
    show (List.foldl (addNew key mk) (addNew key mk ([], seen) x) xs).2 = _
    rw [show addNew key mk ([], seen) x = ([], seen) by simp [addNew, if_neg h]]
    rfl

theorem newCands_sublist (key : α → String) (mk : α → Candidate) :
    ∀ (xs : List α) (seen : List String),
      List.Sublist (newCands key mk seen xs) (xs.map mk) := by
  intro xs
  induction xs with
  | nil => intro seen; simp [newCands_nil]
  | cons x xs ih =>
    intro seen
    rw [newCands_cons]
    by_cases h : key x ≠ "" ∧ key x ∉ seen
    · rw [if_pos h]
      exact List.Sublist.cons₂ (mk x) (ih (key x :: seen))
    · rw [if_neg h]
      exact List.Sublist.cons (mk x) (ih seen)

theorem mem_seenAfter (key : α → String) (mk : α → Candidate) :
    ∀ (xs : List α) (seen : List String) (s : String),
      s ∈ seen → s ∈ seenAfter key mk seen xs := by
  intro xs
  induction xs with
  | nil => intro seen s hs; rwa [seenAfter_nil]
  | cons x xs ih =>
    intro seen s hs
    rw [seenAfter_cons]
    by_cases h : key x ≠ "" ∧ key x ∉ seen
    · rw [if_pos h]
      exact ih (key x :: seen) s (List.mem_cons_of_mem _ hs)
    · rw [if_neg h]
      exact ih seen s hs

theorem newCands_src_facts (key : α → String) (mk : α → Candidate)
    (hmk : ∀ a, (mk a).src = key a) :
    ∀ (xs : List α) (seen : List String) (c : Candidate),
      c ∈ newCands key mk seen xs →
        c.src ∉ seen ∧ c.src ≠ "" ∧ c.src ∈ seenAfter key mk seen xs := by
  intro xs
  induction xs with
  | nil => intro seen c hc; rw [newCands_nil] at hc; cases hc
  | cons x xs ih =>
    intro seen c hc
    rw [newCands_cons] at hc
    rw [seenAfter_cons]
    by_cases h : key x ≠ "" ∧ key x ∉ seen
    · rw [if_pos h] at hc ⊢
      rcases List.mem_cons.mp hc with hx | hx
      · subst hx
        rw [hmk x]
        exact ⟨h.2, h.1,
          mem_seenAfter key mk xs (key x :: seen) (key x) (List.mem_cons_self _ _)⟩
      · obtain ⟨h1, h2, h3⟩ := ih (key x :: seen) c hx
        exact ⟨fun hs => h1 (List.mem_cons_of_mem _ hs), h2, h3⟩
    · rw [if_neg h] at hc ⊢
      exact ih seen c hc

theorem newCands_nodup (key : α → String) (mk : α → Candidate)
    (hmk : ∀ a, (mk a).src = key a) :
    ∀ (xs : List α) (seen : List String),
      ((newCands key mk seen xs).map (fun c => c.src)).Nodup := by
  intro xs
  induction xs with
  | nil => intro seen; rw [newCands_nil]; simp
  | cons x xs ih =>
    intro seen
    rw [newCands_cons]
    by_cases h : key x ≠ "" ∧ key x ∉ seen
    · rw [if_pos h]
      rw [List.map_cons, List.nodup_cons]
      refine ⟨?_, ih (key x :: seen)⟩
      intro hmem
      obtain ⟨c, hc, hcs⟩ := List.mem_map.mp hmem
      obtain ⟨h1, _, _⟩ := newCands_src_facts key mk hmk xs (key x :: seen) c hc
      rw [hmk x] at hcs
      exact h1 (hcs ▸ List.mem_cons_self _ _)
    · rw [if_neg h]
      exact ih seen

theorem reconcile_decomp (iframes : List Candidate) (js : List JsIframe)
    (streamLinks : List LinkLabel) :
    reconcile iframes js streamLinks
      = iframes.map (enrich (urlToLabel streamLinks))
        ++ newCands JsIframe.src (mkJsCand streamLinks) (seenInit iframes streamLinks) js
        ++ newCands LinkLabel.url mkLinkCand
             (seenAfter JsIframe.src (mkJsCand streamLinks)
               (seenInit iframes streamLinks) js)
             streamLinks := by
  show (List.foldl (addNew LinkLabel.url mkLinkCand)
      (List.foldl (addNew JsIframe.src (mkJsCand streamLinks))
        (iframes.map (enrich (urlToLabel streamLinks)), seenInit iframes streamLinks) js)
      streamLinks).1 = _
  rw [foldl_addNew_split JsIframe.src (mkJsCand streamLinks) js
    (iframes.map (enrich (urlToLabel streamLinks))) (seenInit iframes streamLinks)]
  rw [foldl_addNew_split LinkLabel.url mkLinkCand streamLinks _ _]
  simp [newCands, seenAfter, List.append_assoc]

/-! ## Lemmas about enrichment and the URL-to-label mapping -/

theorem enrich_src (m : String → Option String) (c : Candidate) :
    (enrich m c).src = c.src := by
  unfold enrich
  cases m c.src <;> rfl

theorem urlToLabel_append_single (ls : List LinkLabel) (l : LinkLabel) (u : String) :
    urlToLabel (ls ++ [l]) u
      = if l.url ≠ "" ∧ l.label ≠ "" then
          (if u = l.url then some l.label else urlToLabel ls u)
        else urlToLabel ls u := by
  unfold urlToLabel
  rw [List.foldl_append]
  by_cases h : l.url ≠ "" ∧ l.label ≠ ""
  · simp only [List.foldl_cons, List.foldl_nil, if_pos h]
  · simp only [List.foldl_cons, List.foldl_nil, if_neg h]

/-- The Step-1 dictionary realises "the last qualifying entry wins": its
lookup at `u` is the label of the last stream link with URL `u` and
non-empty URL and label. -/
theorem urlToLabel_eq_getLast (streamLinks : List LinkLabel) (u : String) :
    urlToLabel streamLinks u
      = ((streamLinks.filter
            (fun l => l.url == u && l.url != "" && l.label != "")).getLast?).map
          (fun l => l.label) := by
  induction streamLinks using List.reverseRecOn with
  | nil => rfl
  | append_singleton ls l ih =>
    rw [urlToLabel_append_single, List.filter_append]
    by_cases h : l.url ≠ "" ∧ l.label ≠ ""
    · rw [if_pos h]
      by_cases hu : u = l.url
      · subst hu
        have hp : (l.url == l.url && l.url != "" && l.label != "") = true := by
          simp [h.1, h.2]
        rw [List.filter_singleton, hp, cond_true, List.getLast?_concat, if_pos rfl]
        rfl
      · have hp : (l.url == u && l.url != "" && l.label != "") = false := by
          refine Bool.eq_false_iff.mpr ?_
          intro hc
          simp only [Bool.and_eq_true, beq_iff_eq, bne_iff_ne] at hc
          exact hu hc.1.1.symm
        rw [List.filter_singleton, hp, cond_false, List.append_nil, if_neg hu]
        exact ih
    · rw [if_neg h]
      have hp : (l.url == u && l.url != "" && l.label != "") = false := by
        refine Bool.eq_false_iff.mpr ?_
        intro hc
        simp only [Bool.and_eq_true, beq_iff_eq, bne_iff_ne] at hc
        exact h ⟨hc.1.2, hc.2⟩
      rw [List.filter_singleton, hp, cond_false, List.append_nil]
      exact ih

/-! ## Claims C1-C3: properties of the reconciliation engine -/

/-- C1 counterexample: with two identical static candidates (which the
static parser can produce from markup containing the same iframe twice)
the merged output repeats the same `sourceUrl`, so the claim as stated is
false. -/
theorem c1_counterexample :
    ((reconcile
        [{ src := "http://u.example/p", width := "100%", height := "500",
           allowfullscreen := false, label := none },
         { src := "http://u.example/p", width := "100%", height := "500",
           allowfullscreen := false, label := none }] [] []).map (fun c => c.src))
      = ["http://u.example/p", "http://u.example/p"]
    ∧ ¬ ((reconcile
        [{ src := "http://u.example/p", width := "100%", height := "500",
           allowfullscreen := false, label := none },
         { src := "http://u.example/p", width := "100%", height := "500",
           allowfullscreen := false, label := none }] [] []).map (fun c => c.src)).Nodup := by
  decide

/-- C1 (amended): provided the static candidate list itself carries
pairwise-distinct `src` values, the merged output contains no duplicate
`src`: the live-DOM and stream-link appending loops never add a URL that
is already tracked. -/
theorem c1_unique_sources (iframes : List Candidate) (js : List JsIframe)
    (streamLinks : List LinkLabel)
    (h : (iframes.map (fun c => c.src)).Nodup) :
    ((reconcile iframes js streamLinks).map (fun c => c.src)).Nodup := by
  rw [reconcile_decomp]
  have hmkJ : ∀ j : JsIframe, (mkJsCand streamLinks j).src = j.src := fun j => rfl
  have hmkL : ∀ l : LinkLabel, (mkLinkCand l).src = l.url := fun l => rfl
  have hS : (iframes.map (enrich (urlToLabel streamLinks))).map (fun c => c.src)
      = iframes.map (fun c => c.src) := by
    simp only [List.map_map]
    exact List.map_congr_left fun c _ => enrich_src _ c
  have hmemseen0 : ∀ s, s ∈ iframes.map (fun c => c.src) → s ≠ ""
      → s ∈ seenInit iframes streamLinks := by
    intro s hs hne
    unfold seenInit
    rw [hS]
    exact List.mem_filter.mpr ⟨hs, by simpa using hne⟩
  rw [List.append_assoc, List.map_append, List.map_append, hS, List.nodup_append]
  refine ⟨h, ?_, ?_⟩
  · rw [List.nodup_append]
    refine ⟨newCands_nodup _ _ hmkJ js _, newCands_nodup _ _ hmkL streamLinks _, ?_⟩
    intro s hsB hsC
    obtain ⟨c, hc, rfl⟩ := List.mem_map.mp hsB
    obtain ⟨c2, hc2, he⟩ := List.mem_map.mp hsC
    obtain ⟨_, _, hin1⟩ := newCands_src_facts _ _ hmkJ js _ c hc
    obtain ⟨hnotin1, _, _⟩ := newCands_src_facts _ _ hmkL streamLinks _ c2 hc2
    exact hnotin1 (he ▸ hin1)
  · intro s hsS hsBC
    rcases List.mem_append.mp hsBC with hs | hs
    · obtain ⟨c, hc, rfl⟩ := List.mem_map.mp hs
      obtain ⟨hnot0, hne, _⟩ := newCands_src_facts _ _ hmkJ js _ c hc
      exact hnot0 (hmemseen0 _ hsS hne)
    · obtain ⟨c, hc, rfl⟩ := List.mem_map.mp hs
      obtain ⟨hnot1, hne, _⟩ := newCands_src_facts _ _ hmkL streamLinks _ c hc
      exact hnot1 (mem_seenAfter _ _ js _ _ (hmemseen0 _ hsS hne))

theorem c1_witness :
    (([{ src := "http://p.example/1", width := "100%", height := "500",
         allowfullscreen := false, label := none }] : List Candidate).map
        (fun c => c.src)).Nodup
    ∧ ((reconcile
          [{ src := "http://p.example/1", width := "100%", height := "500",
             allowfullscreen := false, label := none }]
          [{ src := "http://p.example/1", id := "", className := "" },
           { src := "http://p.example/2", id := "", className := "" }]
          [{ url := "http://p.example/1", label := "Link 1 HD" }]).map
        (fun c => c.src)).Nodup :=
  ⟨by decide, c1_unique_sources _ _ _ (by decide)⟩

/-- C2: the merged output is exactly the enriched static candidates (in
their original order), followed by the live-DOM additions, followed by
the stream-link additions, and each addition block is an
order-preserving selection (sublist) of its source sequence. -/
theorem c2_output_ordering (iframes : List Candidate) (js : List JsIframe)
    (streamLinks : List LinkLabel) :
    reconcile iframes js streamLinks
      = iframes.map (enrich (urlToLabel streamLinks))
        ++ newCands JsIframe.src (mkJsCand streamLinks) (seenInit iframes streamLinks) js
        ++ newCands LinkLabel.url mkLinkCand
             (seenAfter JsIframe.src (mkJsCand streamLinks)
               (seenInit iframes streamLinks) js)
             streamLinks
    ∧ List.Sublist
        (newCands JsIframe.src (mkJsCand streamLinks) (seenInit iframes streamLinks) js)
        (js.map (mkJsCand streamLinks))
    ∧ List.Sublist
        (newCands LinkLabel.url mkLinkCand
          (seenAfter JsIframe.src (mkJsCand streamLinks)
            (seenInit iframes streamLinks) js)
          streamLinks)
        (streamLinks.map mkLinkCand) :=
  ⟨reconcile_decomp iframes js streamLinks,
   newCands_sublist _ _ js _,
   newCands_sublist _ _ streamLinks _⟩

/-- C3: a static candidate whose `src` has a qualifying stream-link entry
(non-empty URL and label) keeps its position in the merged output and
gets exactly the label of the last such entry, all other fields
unchanged. -/
theorem c3_static_label_enrichment (iframes : List Candidate) (js : List JsIframe)
    (streamLinks : List LinkLabel) (i : Nat) (hi : i < iframes.length) (ll : LinkLabel)
    (h : (streamLinks.filter
        (fun l => l.url == iframes[i].src && l.url != "" && l.label != "")).getLast?
        = some ll) :
    (reconcile iframes js streamLinks)[i]?
      = some { iframes[i] with label := some ll.label } := by
  rw [reconcile_decomp, List.append_assoc]
  have hi2 : i < (iframes.map (enrich (urlToLabel streamLinks))).length := by
    simpa using hi
  rw [List.getElem?_append_left hi2, List.getElem?_map, List.getElem?_eq_getElem hi]
  simp only [Option.map_some']
  congr 1
  unfold enrich
  rw [urlToLabel_eq_getLast, h]
  rfl

theorem c3_witness :
    (([{ url := "http://u.example/p", label := "Link 1 HD" }] : List LinkLabel).filter
        (fun l => l.url == "http://u.example/p" && l.url != "" && l.label != "")).getLast?
      = some { url := "http://u.example/p", label := "Link 1 HD" }
    ∧ (reconcile
        [{ src := "http://u.example/p", width := "640", height := "480",
           allowfullscreen := true, label := none }] []
        [{ url := "http://u.example/p", label := "Link 1 HD" }])[0]?
      = some { src := "http://u.example/p", width := "640", height := "480",
               allowfullscreen := true, label := some "Link 1 HD" } :=
  ⟨by decide,
   c3_static_label_enrichment _ _ _ 0 (by decide)
     { url := "http://u.example/p", label := "Link 1 HD" } (by decide)⟩

/-! ## Lemmas about the fallback link harvester -/

theorem mem_of_mem_dedupByUrlAux :
    ∀ (ls : List FallbackLink) (seen : List String) (l : FallbackLink),
      l ∈ dedupByUrlAux seen ls → l ∈ ls := by
  intro ls
  induction ls with
  | nil => intro seen l h; cases h
  | cons x ls ih =>
    intro seen l h
    unfold dedupByUrlAux at h
    by_cases hx : x.url ∈ seen
    · rw [if_pos hx] at h
      exact List.mem_cons_of_mem _ (ih seen l h)
    · rw [if_neg hx] at h
      rcases List.mem_cons.mp h with hl | hl
      · exact hl ▸ List.mem_cons_self _ _
      · exact List.mem_cons_of_mem _ (ih _ l hl)

theorem dedupByUrlAux_nodup_facts :
    ∀ (ls : List FallbackLink) (seen : List String),
      ((dedupByUrlAux seen ls).map (fun l => l.url)).Nodup
      ∧ ∀ l ∈ dedupByUrlAux seen ls, l.url ∉ seen := by
  intro ls
  induction ls with
  | nil => intro seen; exact ⟨List.nodup_nil, fun l h => absurd h (List.not_mem_nil l)⟩
  | cons x ls ih =>
    intro seen
    unfold dedupByUrlAux
    by_cases hx : x.url ∈ seen
    · rw [if_pos hx]
      exact ih seen
    · rw [if_neg hx]
      obtain ⟨ihn, ihm⟩ := ih (x.url :: seen)
      refine ⟨?_, ?_⟩
      · rw [List.map_cons, List.nodup_cons]
        refine ⟨?_, ihn⟩
        intro hmem
        obtain ⟨l, hl, hls⟩ := List.mem_map.mp hmem
        exact ihm l hl (hls ▸ List.mem_cons_self _ _)
      · intro l hl
        rcases List.mem_cons.mp hl with h2 | h2
        · exact h2 ▸ hx
        · exact fun hs => ihm l h2 (List.mem_cons_of_mem _ hs)

theorem dedupByUrlAux_find (u : String) :
    ∀ (ls : List FallbackLink) (seen : List String), u ∉ seen →
      (dedupByUrlAux seen ls).find? (fun l => l.url == u)
        = ls.find? (fun l => l.url == u) := by
  intro ls
  induction ls with
  | nil => intro seen hu; rfl
  | cons x ls ih =>
    intro seen hu
    unfold dedupByUrlAux
    by_cases hx : x.url ∈ seen
    · rw [if_pos hx, List.find?_cons]
      have hne : (x.url == u) = false := by
        refine Bool.eq_false_iff.mpr ?_
        intro hb
        exact hu (beq_iff_eq.mp hb ▸ hx)
      rw [hne]
      exact ih seen hu
    · rw [if_neg hx, List.find?_cons, List.find?_cons]
      by_cases hb : (x.url == u) = true
      · rw [hb]
      · rw [Bool.eq_false_iff.mpr hb]
        refine ih (x.url :: seen) ?_
        intro hmem
        rcases List.mem_cons.mp hmem with h2 | h2
        · exact hb (beq_iff_eq.mpr h2.symm)
        · exact hu h2

theorem resolveAnchor_some (scheme domain url : String) (a : Anchor) (l : FallbackLink)
    (h : resolveAnchor scheme domain url a = some l) :
    strContains (urlparse l.url).netloc domain = true
    ∧ l.url ≠ url
    ∧ l.url = (if startsWithStr (pyStrip a.href) "/" = true
               then scheme ++ "://" ++ domain ++ pyStrip a.href else pyStrip a.href)
    ∧ l.title = (if pyStrip a.text ≠ "" then pyStrip a.text else l.url) := by
  unfold resolveAnchor at h
  dsimp only at h
  by_cases hskip : pyStrip a.href = "" ∨ startsWithStr (pyStrip a.href) "#" = true
      ∨ startsWithStr (pyStrip a.href) "javascript:" = true
  · rw [if_pos hskip] at h
    exact absurd h (by simp)
  · rw [if_neg hskip] at h
    by_cases hother : ¬ startsWithStr (pyStrip a.href) "/" = true
        ∧ ¬ startsWithStr (pyStrip a.href) "http" = true
    · rw [if_pos hother] at h
      exact absurd h (by simp)
    · rw [if_neg hother] at h
      by_cases hcont : ¬ strContains
          (urlparse (if startsWithStr (pyStrip a.href) "/" = true
            then scheme ++ "://" ++ domain ++ pyStrip a.href else pyStrip a.href)).netloc
          domain = true
      · rw [if_pos hcont] at h
        exact absurd h (by simp)
      · rw [if_neg hcont] at h
        by_cases hurl : (if startsWithStr (pyStrip a.href) "/" = true
            then scheme ++ "://" ++ domain ++ pyStrip a.href else pyStrip a.href) = url
        · rw [if_pos hurl] at h
          exact absurd h (by simp)
        · rw [if_neg hurl] at h
          have hl := Option.some_inj.mp h
          subst hl
          exact ⟨by simpa using hcont, hurl, rfl, rfl⟩

theorem harvestLinks_mem (scheme domain url : String) (anchors : List Anchor)
    (l : FallbackLink) (h : l ∈ harvestLinks scheme domain url anchors) :
    strContains (urlparse l.url).netloc domain = true ∧ l.url ≠ url := by
  have hmem := mem_of_mem_dedupByUrlAux _ _ _ h
  obtain ⟨a, _, ha⟩ := List.mem_filterMap.mp hmem
  obtain ⟨hc, hne, _, _⟩ := resolveAnchor_some scheme domain url a l ha
  exact ⟨hc, hne⟩

theorem harvestLinks_nodup (scheme domain url : String) (anchors : List Anchor) :
    ((harvestLinks scheme domain url anchors).map (fun l => l.url)).Nodup :=
  (dedupByUrlAux_nodup_facts _ []).1

/-! ## Lemmas about the request pipeline -/

/-- With a valid consent payload, `extract_stream` reduces to URL
validation followed by the render/merge phase. -/
theorem extractStream_consent_ok (isoOk : String → Bool) (req : Request) (page : Page)
    (h1 : req.consent.given = true) (h2 : tsTruthy req.consent.timestamp = true)
    (h3 : isoOk (pyReplace (req.consent.timestamp.getD "") "Z" "+00:00") = true) :
    extractStream isoOk req page
      = (if req.url = "" then ExtractResult.urlError "URL is required" 400
         else if ¬ ((urlparse req.url).scheme = "http" ∨ (urlparse req.url).scheme = "https") then
           ExtractResult.urlError "Invalid URL scheme" 400
         else if (urlparse req.url).netloc = "" then
           ExtractResult.urlError "Invalid URL: missing hostname" 400
         else if (reconcile (parseIframes page.iframeElems) page.jsIframes
             page.streamLinks).isEmpty then
           ExtractResult.noPlayerFound
             ((harvestLinks (urlparse req.url).scheme (urlparse req.url).netloc req.url
                 page.anchors).take 50) 404
         else
           ExtractResult.success (page.title.getD "Stream")
             (reconcile (parseIframes page.iframeElems) page.jsIframes page.streamLinks)) := by
  unfold extractStream
  rw [if_neg (by simp [h1, h2]), if_neg (by simp [h3])]

/-! ## Claim C4: the no-player fallback -/

/-- C4 counterexample: with no candidates anywhere, the fallback payload
contains the link `http://xa.com/q` although its hostname `xa.com`
differs from the target hostname `a.com` — the `domain in link_domain`
containment check admits a non-same-origin link, so the same-origin part
of the claim is false. -/
theorem c4_counterexample :
    extractStream (fun _ => true)
        { url := "http://a.com/page",
          consent := { given := true, timestamp := some "2024-01-02T03:04:05" } }
        { title := none, iframeElems := [],
          anchors := [{ href := "http://xa.com/q", text := "t" }],
          jsIframes := [], streamLinks := [] }
      = ExtractResult.noPlayerFound [{ url := "http://xa.com/q", title := "t" }] 404
    ∧ (urlparse "http://xa.com/q").netloc ≠ (urlparse "http://a.com/page").netloc := by
  decide

/-- C4 (amended): when the three discovery strategies yield nothing, the
result is the no-player variant whose fallback links are deduplicated,
capped at 50, and each has the target hostname as a *substring* of its
own hostname (the code's containment check — not full same-origin). -/
theorem c4_fallback_properties (isoOk : String → Bool) (req : Request) (page : Page)
    (h1 : req.consent.given = true) (h2 : tsTruthy req.consent.timestamp = true)
    (h3 : isoOk (pyReplace (req.consent.timestamp.getD "") "Z" "+00:00") = true)
    (hscheme : (urlparse req.url).scheme = "http" ∨ (urlparse req.url).scheme = "https")
    (hnetloc : (urlparse req.url).netloc ≠ "")
    (hstatic : parseIframes page.iframeElems = [])
    (hjs : page.jsIframes = []) (hlinks : page.streamLinks = []) :
    ∃ links,
      extractStream isoOk req page = ExtractResult.noPlayerFound links 404
      ∧ (∀ l ∈ links, strContains (urlparse l.url).netloc (urlparse req.url).netloc = true
          ∧ l.url ≠ req.url)
      ∧ (links.map (fun l => l.url)).Nodup
      ∧ links.length ≤ 50 := by
  have hne : req.url ≠ "" := by
    intro he
    rw [he] at hscheme
    simp [urlparse] at hscheme
  rw [extractStream_consent_ok isoOk req page h1 h2 h3]
  rw [if_neg hne, if_neg (not_not_intro hscheme), if_neg hnetloc]
  rw [hstatic, hjs, hlinks]
  rw [if_pos (by rfl)]
  refine ⟨_, rfl, ?_, ?_, ?_⟩
  · intro l hl
    exact harvestLinks_mem _ _ _ _ l (List.take_subset _ _ hl)
  · rw [List.map_take]
    exact List.Nodup.sublist (List.take_sublist _ _) (harvestLinks_nodup _ _ _ _)
  · exact List.length_take_le _ _

theorem c4_witness :
    ∃ links,
      extractStream (fun _ => true)
          { url := "http://a.com/page",
            consent := { given := true, timestamp := some "2024-01-02T03:04:05" } }
          { title := none, iframeElems := [],
            anchors := [{ href := "/watch/2", text := "Game" }],
            jsIframes := [], streamLinks := [] }
        = ExtractResult.noPlayerFound links 404
      ∧ (∀ l ∈ links,
          strContains (urlparse l.url).netloc (urlparse "http://a.com/page").netloc = true
          ∧ l.url ≠ "http://a.com/page")
      ∧ (links.map (fun l => l.url)).Nodup
      ∧ links.length ≤ 50 :=
  c4_fallback_properties (fun _ => true) _ _ rfl (by decide) rfl (Or.inl (by decide))
    (by decide) rfl rfl rfl

/-! ## Claim C7: the static markup parser -/

theorem staticStep_eq (acc : List Candidate) (e : HtmlElem) :
    staticStep acc e = acc ++ staticStep [] e := by
  unfold staticStep
  by_cases h : ((getAttr e "src").getD "") ≠ ""
  · rw [if_pos h, if_pos h]
    simp
  · rw [if_neg h, if_neg h]
    simp

theorem staticStep_split :
    ∀ (elems : List HtmlElem) (acc : List Candidate),
      elems.foldl staticStep acc = acc ++ elems.foldl staticStep [] := by
  intro elems
  induction elems with
  | nil => intro acc; simp
  | cons e elems ih =>
    intro acc
    rw [List.foldl_cons, List.foldl_cons]
    rw [ih (staticStep acc e), ih (staticStep [] e)]
    rw [staticStep_eq acc e]
    simp

/-- C7: the static parser emits exactly one candidate per iframe element
whose `src` attribute is present and non-empty, in document order, with
attribute-or-default width/height and presence-checked
`allowfullscreen`. -/
theorem c7_static_markup (elems : List HtmlElem) :
    parseIframes elems
      = (elems.filter (fun e => (getAttr e "src").getD "" != "")).map
          (fun e =>
            { src := (getAttr e "src").getD ""
              width := (getAttr e "width").getD "100%"
              height := (getAttr e "height").getD "500"
              allowfullscreen := (getAttr e "allowfullscreen").isSome
              label := none }) := by
  induction elems with
  | nil => rfl
  | cons e elems ih =>
    show List.foldl staticStep (staticStep [] e) elems = _
    rw [staticStep_split, List.filter_cons]
    by_cases h : ((getAttr e "src").getD "") ≠ ""
    · rw [if_pos (by simpa using h), List.map_cons]
      rw [show staticStep [] e
          = [{ src := (getAttr e "src").getD ""
               width := (getAttr e "width").getD "100%"
               height := (getAttr e "height").getD "500"
               allowfullscreen := (getAttr e "allowfullscreen").isSome
               label := none }] from by simp [staticStep, if_pos h]]
      rw [show (List.foldl staticStep [] elems) = parseIframes elems from rfl, ih]
      rfl
    · rw [if_neg (by simpa using h)]
      rw [show staticStep [] e = [] from by simp [staticStep, h]]
      rw [show (List.foldl staticStep [] elems) = parseIframes elems from rfl, ih]
      rfl

/-! ## Claim C8: per-anchor behaviour of the harvester -/

/-- C8 counterexample: the relative destination `watch/2` is neither a
pure in-page anchor nor a script pseudo-URL, yet the harvester drops it
entirely instead of resolving it against the target origin — only
root-relative (`/`-prefixed) destinations are resolved. -/
theorem c8_counterexample :
    harvestLinks "http" "a.com" "http://a.com/page" [{ href := "watch/2", text := "Game" }] = []
    ∧ resolveAnchor "http" "a.com" "http://a.com/page" { href := "watch/2", text := "Game" }
        = none := by
  decide

/-- C8 (amended): empty/in-page/javascript destinations are skipped;
destinations starting with `/` are resolved against `scheme://domain`;
all other destinations not starting with `http` are skipped (not
resolved); an accepted link is never the target URL itself and its title
defaults to the resolved URL when the anchor text is blank; and
deduplication keeps the first occurrence of each URL together with its
display text. -/
theorem c8_anchor_processing (scheme domain url : String) (anchors : List Anchor)
    (a : Anchor) (u : String) :
    (pyStrip a.href = "" ∨ startsWithStr (pyStrip a.href) "#" = true
        ∨ startsWithStr (pyStrip a.href) "javascript:" = true →
      resolveAnchor scheme domain url a = none)
    ∧ (startsWithStr (pyStrip a.href) "/" = false →
       startsWithStr (pyStrip a.href) "http" = false →
      resolveAnchor scheme domain url a = none)
    ∧ (∀ l, resolveAnchor scheme domain url a = some l →
      l.url = (if startsWithStr (pyStrip a.href) "/" = true
               then scheme ++ "://" ++ domain ++ pyStrip a.href else pyStrip a.href)
      ∧ l.url ≠ url
      ∧ l.title = (if pyStrip a.text ≠ "" then pyStrip a.text else l.url))
    ∧ (harvestLinks scheme domain url anchors).find? (fun l => l.url == u)
        = (anchors.filterMap (resolveAnchor scheme domain url)).find? (fun l => l.url == u) := by
  refine ⟨?_, ?_, ?_, ?_⟩
  · intro h
    unfold resolveAnchor
    rw [if_pos h]
  · intro hs hh
    unfold resolveAnchor
    by_cases h0 : pyStrip a.href = "" ∨ startsWithStr (pyStrip a.href) "#" = true
        ∨ startsWithStr (pyStrip a.href) "javascript:" = true
    · rw [if_pos h0]
    · rw [if_neg h0]
      rw [if_pos ⟨by simp [hs], by simp [hh]⟩]
  · intro l hl
    obtain ⟨_, h2, h3, h4⟩ := resolveAnchor_some scheme domain url a l hl
    exact ⟨h3, h2, h4⟩
  · exact dedupByUrlAux_find u _ [] (by simp)

theorem c8_witness :
    resolveAnchor "http" "a.com" "http://a.com/page" { href := "#top", text := "x" } = none :=
  (c8_anchor_processing "http" "a.com" "http://a.com/page" []
      { href := "#top", text := "x" } "").1
    (Or.inr (Or.inl (by decide)))

/-! ## Claims C9 and C10: input validation order -/

/-- C9: with valid consent, a URL whose parsed scheme is not http/https
or whose netloc is empty is rejected with an invalid-URL error and the
page content is never consulted; conversely a URL passing both checks is
never rejected as invalid. -/
theorem c9_url_validation (isoOk : String → Bool) (req : Request) (page page2 : Page)
    (h1 : req.consent.given = true) (h2 : tsTruthy req.consent.timestamp = true)
    (h3 : isoOk (pyReplace (req.consent.timestamp.getD "") "Z" "+00:00") = true) :
    ((¬ ((urlparse req.url).scheme = "http" ∨ (urlparse req.url).scheme = "https")
        ∨ (urlparse req.url).netloc = "") →
      isUrlError (extractStream isoOk req page)
      ∧ extractStream isoOk req page = extractStream isoOk req page2)
    ∧ (((urlparse req.url).scheme = "http" ∨ (urlparse req.url).scheme = "https")
        ∧ (urlparse req.url).netloc ≠ "" →
      ¬ isUrlError (extractStream isoOk req page)) := by
  rw [extractStream_consent_ok isoOk req page h1 h2 h3,
    extractStream_consent_ok isoOk req page2 h1 h2 h3]
  constructor
  · intro hbad
    by_cases hne : req.url = ""
    · rw [if_pos hne, if_pos hne]
      exact ⟨trivial, rfl⟩
    · rw [if_neg hne, if_neg hne]
      by_cases hsch : (urlparse req.url).scheme = "http" ∨ (urlparse req.url).scheme = "https"
      · have hnet : (urlparse req.url).netloc = "" := by
          rcases hbad with hb | hb
          · exact absurd hsch hb
          · exact hb
        rw [if_neg (not_not_intro hsch), if_neg (not_not_intro hsch), if_pos hnet, if_pos hnet]
        exact ⟨trivial, rfl⟩
      · rw [if_pos hsch, if_pos hsch]
        exact ⟨trivial, rfl⟩
  · intro hgood
    have hne : req.url ≠ "" := by
      intro he
      rw [he] at hgood
      simp [urlparse] at hgood
    rw [if_neg hne, if_neg (not_not_intro hgood.1), if_neg hgood.2]
    by_cases hempty : (reconcile (parseIframes page.iframeElems) page.jsIframes
        page.streamLinks).isEmpty
    · rw [if_pos hempty]
      exact fun hc => hc
    · rw [if_neg hempty]
      exact fun hc => hc

theorem c9_witness :
    isUrlError (extractStream (fun _ => true)
      { url := "ftp://files.example/x",
        consent := { given := true, timestamp := some "2024-01-02T03:04:05" } }
      { title := none, iframeElems := [], anchors := [], jsIframes := [], streamLinks := [] }) :=
  ((c9_url_validation (fun _ => true) _ _
      { title := none, iframeElems := [], anchors := [], jsIframes := [], streamLinks := [] }
      rfl (by decide) rfl).1
    (Or.inl (by decide))).1

/-- C10: consent is validated before anything else — a missing/falsy
consent flag or timestamp yields the 403 consent error, an unparseable
timestamp yields the 400 format error, and in both cases the URL and the
page content are irrelevant (the same error is returned for any URL and
any page). -/
theorem c10_consent_first (isoOk : String → Bool) (req : Request) (page page2 : Page)
    (url2 : String) :
    (¬ (req.consent.given = true ∧ tsTruthy req.consent.timestamp = true) →
      extractStream isoOk req page
        = ExtractResult.consentError "You must agree to the terms before using this service" 403
      ∧ extractStream isoOk { url := url2, consent := req.consent } page2
          = extractStream isoOk req page)
    ∧ (req.consent.given = true → tsTruthy req.consent.timestamp = true →
       isoOk (pyReplace (req.consent.timestamp.getD "") "Z" "+00:00") = false →
      extractStream isoOk req page
        = ExtractResult.consentError "Invalid consent timestamp format" 400
      ∧ extractStream isoOk { url := url2, consent := req.consent } page2
          = extractStream isoOk req page) := by
  constructor
  · intro h
    have e1 : extractStream isoOk req page
        = ExtractResult.consentError "You must agree to the terms before using this service"
            403 := by
      unfold extractStream
      rw [if_pos h]
    have e2 : extractStream isoOk { url := url2, consent := req.consent } page2
        = ExtractResult.consentError "You must agree to the terms before using this service"
            403 := by
      unfold extractStream
      rw [if_pos h]
    exact ⟨e1, e2.trans e1.symm⟩
  · intro hg ht hiso
    have e1 : extractStream isoOk req page
        = ExtractResult.consentError "Invalid consent timestamp format" 400 := by
      unfold extractStream
      rw [if_neg (by simp [hg, ht]), if_pos (by simp [hiso])]
    have e2 : extractStream isoOk { url := url2, consent := req.consent } page2
        = ExtractResult.consentError "Invalid consent timestamp format" 400 := by
      unfold extractStream
      rw [if_neg (by simp [hg, ht]), if_pos (by simp [hiso])]
    exact ⟨e1, e2.trans e1.symm⟩

theorem c10_witness :
    extractStream (fun _ => true)
        { url := "not a url", consent := { given := false, timestamp := none } }
        { title := none, iframeElems := [], anchors := [], jsIframes := [], streamLinks := [] }
      = ExtractResult.consentError "You must agree to the terms before using this service" 403 :=
  ((c10_consent_first (fun _ => true)
      { url := "not a url", consent := { given := false, timestamp := none } }
      { title := none, iframeElems := [], anchors := [], jsIframes := [], streamLinks := [] }
      { title := none, iframeElems := [], anchors := [], jsIframes := [], streamLinks := [] }
      "x").1 (by simp)).1

/-! ## Lemmas about the affordance-miner strategies -/

theorem jsEqStr_false_ne (j : Json) (u : String) (h : jsEqStr j u = false) :
    j ≠ Json.str u := by
  intro he
  subst he
  simp [jsEqStr] at h

theorem pushPlayer_eq (links : List JsLink) (url : String) :
    pushPlayer links url = links
    ∨ (links.any (fun l => jsEqStr l.url url) = false
       ∧ pushPlayer links url
          = links ++ [{ label := Json.str ("Server " ++ toString (links.length + 1)),
                        url := Json.str url }]) := by
  unfold pushPlayer
  by_cases hc : ¬ (links.any (fun l => jsEqStr l.url url)) = true
  · exact Or.inr ⟨Bool.eq_false_iff.mpr hc, by rw [if_pos hc]⟩
  · exact Or.inl (by rw [if_neg hc])

theorem foldl_pushPlayer_ext :
    ∀ (urls : List String) (links : List JsLink),
      ∃ new, urls.foldl pushPlayer links = links ++ new
        ∧ (∀ x ∈ new, (∀ y ∈ links, y.url ≠ x.url) ∧ ∃ u, x.url = Json.str u)
        ∧ (new.map (fun l => l.url)).Nodup := by
  intro urls
  induction urls with
  | nil => intro links; exact ⟨[], by simp, by simp, by simp⟩
  | cons u urls ih =>
    intro links
    rw [List.foldl_cons]
    rcases pushPlayer_eq links u with he | ⟨hfresh, he⟩
    · rw [he]
      exact ih links
    · rw [he]
      obtain ⟨new1, e1, p1, n1⟩ := ih
        (links ++ [{ label := Json.str ("Server " ++ toString (links.length + 1)),
                     url := Json.str u }])
      refine ⟨{ label := Json.str ("Server " ++ toString (links.length + 1)),
                url := Json.str u } :: new1, ?_, ?_, ?_⟩
      · rw [e1]
        simp
      · intro z hz
        rcases List.mem_cons.mp hz with hz1 | hz2
        · subst hz1
          refine ⟨?_, ⟨u, rfl⟩⟩
          intro y hy
          have hfy : jsEqStr y.url u = false := by
            have := List.any_eq_false.mp hfresh y hy
            exact Bool.eq_false_iff.mpr this
          exact jsEqStr_false_ne y.url u hfy
        · obtain ⟨hz3, hz4⟩ := p1 z hz2
          exact ⟨fun y hy => hz3 y (List.mem_append_left _ hy), hz4⟩
      · rw [List.map_cons, List.nodup_cons]
        refine ⟨?_, n1⟩
        intro hmem
        obtain ⟨z, hz, hzu⟩ := List.mem_map.mp hmem
        have hne := (p1 z hz).1
          { label := Json.str ("Server " ++ toString (links.length + 1)), url := Json.str u }
          (List.mem_append_right _ (List.mem_singleton.mpr rfl))
        exact hne hzu.symm

theorem runStrategyC_ext :
    ∀ (scripts : List String) (links : List JsLink),
      ∃ new, runStrategyC scripts links = links ++ new
        ∧ (∀ x ∈ new, (∀ y ∈ links, y.url ≠ x.url) ∧ ∃ u, x.url = Json.str u)
        ∧ (new.map (fun l => l.url)).Nodup := by
  intro scripts
  induction scripts with
  | nil => intro links; exact ⟨[], by simp [runStrategyC], by simp, by simp⟩
  | cons s scripts ih =>
    intro links
    have hrec : runStrategyC (s :: scripts) links
        = runStrategyC scripts
            (if s ≠ "" then (playerMatches s).foldl pushPlayer links else links) := rfl
    have hstep : ∃ new0,
        (if s ≠ "" then (playerMatches s).foldl pushPlayer links else links) = links ++ new0
        ∧ (∀ x ∈ new0, (∀ y ∈ links, y.url ≠ x.url) ∧ ∃ u, x.url = Json.str u)
        ∧ (new0.map (fun l => l.url)).Nodup := by
      by_cases hs : s ≠ ""
      · rw [if_pos hs]
        exact foldl_pushPlayer_ext (playerMatches s) links
      · rw [if_neg hs]
        exact ⟨[], by simp, by simp, by simp⟩
    obtain ⟨new0, e0, p0, n0⟩ := hstep
    obtain ⟨new1, e1, p1, n1⟩ := ih (links ++ new0)
    refine ⟨new0 ++ new1, ?_, ?_, ?_⟩
    · rw [hrec, e0, e1, List.append_assoc]
    · intro z hz
      rcases List.mem_append.mp hz with hz0 | hz1
      · exact p0 z hz0
      · obtain ⟨hz2, hz3⟩ := p1 z hz1
        exact ⟨fun y hy => hz2 y (List.mem_append_left _ hy), hz3⟩
    · rw [List.map_append, List.nodup_append]
      refine ⟨n0, n1, ?_⟩
      intro v hv0 hv1
      obtain ⟨z0, hz0, hzv0⟩ := List.mem_map.mp hv0
      obtain ⟨z1, hz1, hzv1⟩ := List.mem_map.mp hv1
      exact (p1 z1 hz1).1 z0 (List.mem_append_right _ hz0) (hzv0.trans hzv1.symm)

theorem labelsFrom_pushPlayer (base : Nat) (links : List JsLink) (u : String)
    (h : LabelsFrom base links) : LabelsFrom base (pushPlayer links u) := by
  rcases pushPlayer_eq links u with he | ⟨_, he⟩
  · rwa [he]
  · rw [he]
    intro i x hbase hx
    rcases Nat.lt_trichotomy i links.length with hi | hi | hi
    · rw [List.getElem?_append_left hi] at hx
      exact h i x hbase hx
    · subst hi
      rw [List.getElem?_concat_length] at hx
      injection hx with hx
      rw [← hx]
    · rw [List.getElem?_append_right (by omega)] at hx
      rw [List.getElem?_eq_none (by simp; omega)] at hx
      cases hx

theorem labelsFrom_foldl (base : Nat) :
    ∀ (urls : List String) (links : List JsLink), LabelsFrom base links →
      LabelsFrom base (urls.foldl pushPlayer links) := by
  intro urls
  induction urls with
  | nil => intro links h; exact h
  | cons u urls ih =>
    intro links h
    exact ih _ (labelsFrom_pushPlayer base links u h)

theorem labelsFrom_runStrategyC (base : Nat) :
    ∀ (scripts : List String) (links : List JsLink), LabelsFrom base links →
      LabelsFrom base (runStrategyC scripts links) := by
  intro scripts
  induction scripts with
  | nil => intro links h; exact h
  | cons s scripts ih =>
    intro links h
    have hrec : runStrategyC (s :: scripts) links
        = runStrategyC scripts
            (if s ≠ "" then (playerMatches s).foldl pushPlayer links else links) := rfl
    rw [hrec]
    by_cases hs : s ≠ ""
    · rw [if_pos hs]
      exact ih _ (labelsFrom_foldl base _ links h)
    · rw [if_neg hs]
      exact ih _ h

/-! ## Claims C5 and C6: the miner's deduplication and labelling -/

/-- C5 counterexample: Strategy A emits `http://u.example/p` from a
button onclick handler, and Strategy B then emits the very same URL
again from the `allStreams` array — Method 2 pushes every parsed entry
without consulting the links already accumulated, so a URL found by an
earlier strategy *is* emitted again by a later one. -/
theorem c5_counterexample :
    runStrategyA minerDupDoc.clickables []
      = [{ label := Json.str "Link 1", url := Json.str "http://u.example/p" }]
    ∧ runStrategyB minerDupDoc.scripts
        [{ label := Json.str "Link 1", url := Json.str "http://u.example/p" }]
      = [{ label := Json.str "Link 1", url := Json.str "http://u.example/p" },
         { label := Json.str "B1", url := Json.str "http://u.example/p" }]
    ∧ extractStreamLinks minerDupDoc
      = [{ label := Json.str "Link 1", url := Json.str "http://u.example/p" },
         { label := Json.str "B1", url := Json.str "http://u.example/p" }] :=
  ⟨rfl, rfl, rfl⟩

/-- C5 (amended): only Strategy C deduplicates — its contribution (the
suffix the Method-3 loop appends after A and B) never repeats a URL
already accumulated by Strategies A/B and never repeats a URL within
itself.  Strategy B performs no such check (see the counterexample). -/
theorem c5_strategy_dedup (doc : LiveDoc) :
    (extractStreamLinks doc).take
        (runStrategyB doc.scripts (runStrategyA doc.clickables [])).length
      = runStrategyB doc.scripts (runStrategyA doc.clickables [])
    ∧ (∀ x ∈ (extractStreamLinks doc).drop
          (runStrategyB doc.scripts (runStrategyA doc.clickables [])).length,
        ∀ y ∈ runStrategyB doc.scripts (runStrategyA doc.clickables []), y.url ≠ x.url)
    ∧ (((extractStreamLinks doc).drop
          (runStrategyB doc.scripts (runStrategyA doc.clickables [])).length).map
        (fun l => l.url)).Nodup := by
  obtain ⟨new, e, p, n⟩ := runStrategyC_ext doc.scripts
    (runStrategyB doc.scripts (runStrategyA doc.clickables []))
  have he : extractStreamLinks doc
      = runStrategyB doc.scripts (runStrategyA doc.clickables []) ++ new := e
  rw [he, List.take_left, List.drop_left]
  refine ⟨rfl, ?_, n⟩
  intro x hx y hy
  exact (p x hx).1 y hy

theorem c5_witness :
    (runStrategyC minerNumberDoc.scripts
        (runStrategyB minerNumberDoc.scripts (runStrategyA minerNumberDoc.clickables []))).take
        (runStrategyB minerNumberDoc.scripts (runStrategyA minerNumberDoc.clickables [])).length
      = runStrategyB minerNumberDoc.scripts (runStrategyA minerNumberDoc.clickables [])
    ∧ ({ label := Json.str "Server", url := Json.str "http://a.example/x" } : JsLink).url
        ≠ ({ label := Json.str "Server 2",
             url := Json.str "http://h.example/player?channel=5" } : JsLink).url :=
  ⟨(c5_strategy_dedup minerNumberDoc).1,
   (c5_strategy_dedup minerNumberDoc).2.1
     { label := Json.str "Server 2", url := Json.str "http://h.example/player?channel=5" }
     (by
       have e : (extractStreamLinks minerNumberDoc).drop
           (runStrategyB minerNumberDoc.scripts
             (runStrategyA minerNumberDoc.clickables [])).length
           = [{ label := Json.str "Server 2",
                url := Json.str "http://h.example/player?channel=5" }] := rfl
       rw [e]
       exact List.mem_singleton.mpr rfl)
     { label := Json.str "Server", url := Json.str "http://a.example/x" }
     (by
       have e : runStrategyB minerNumberDoc.scripts (runStrategyA minerNumberDoc.clickables [])
           = [{ label := Json.str "Server", url := Json.str "http://a.example/x" }] := rfl
       rw [e]
       exact List.mem_singleton.mpr rfl)⟩

/-- C6 counterexample: with one Strategy-A link already accumulated, the
first new Strategy-C match is labelled `"Server 2"`, not `"Server 1"` —
the counter is `links.length + 1` over the whole accumulated array, not
a counter private to Strategy C. -/
theorem c6_counterexample :
    extractStreamLinks minerNumberDoc
      = [{ label := Json.str "Server", url := Json.str "http://a.example/x" },
         { label := Json.str "Server 2",
           url := Json.str "http://h.example/player?channel=5" }]
    ∧ Json.str "Server 2" ≠ Json.str "Server 1" := by
  refine ⟨rfl, ?_⟩
  intro h
  injection h with h2
  exact absurd h2 (by decide)

/-- C6 (amended): every entry Strategy C appends (any position at or
beyond the length of the already-accumulated links) is labelled
`"Server N"` with `N` = its zero-based position in the whole links array
plus one — i.e. the counter continues from the total number of links
emitted by all strategies so far, rather than restarting at 1 within
Strategy C. -/
theorem c6_server_numbering (scripts : List String) (acc : List JsLink) (i : Nat)
    (x : JsLink) (h1 : acc.length ≤ i) (h2 : (runStrategyC scripts acc)[i]? = some x) :
    x.label = Json.str ("Server " ++ toString (i + 1)) := by
  have base : LabelsFrom acc.length acc := by
    intro j y hj hy
    have hlt : j < acc.length := by
      by_contra hc
      rw [List.getElem?_eq_none (by omega)] at hy
      cases hy
    omega
  exact labelsFrom_runStrategyC acc.length scripts acc base i x h1 h2

theorem c6_witness :
    ∃ x, (runStrategyC minerNumberDoc.scripts
        [{ label := Json.str "Server", url := Json.str "http://a.example/x" }])[1]? = some x
      ∧ x.label = Json.str ("Server " ++ toString (1 + 1)) :=
  ⟨{ label := Json.str "Server 2", url := Json.str "http://h.example/player?channel=5" },
   rfl,
   c6_server_numbering minerNumberDoc.scripts
     [{ label := Json.str "Server", url := Json.str "http://a.example/x" }] 1
     { label := Json.str "Server 2", url := Json.str "http://h.example/player?channel=5" }
     (by decide) rfl⟩

end StreamExtract
